import Mathlib

/-!
Verification of the attendance-bot core (src/bot.py) against its
natural-language specification.  Python strings are modelled as `List Char`,
Python dicts as association lists with unique keys, and the persisted JSON
document as a plain structure.  Every definition follows the corresponding
source function; the theorems at the end of the file settle the spec claims.
-/

/-! ## Codec (bot.py lines 135-141)

`encode_cb` / `decode_cb` are built from Python `str.replace`, which rewrites
all non-overlapping occurrences of a (non-empty) pattern left to right.
`replaceAllF` is that scan with explicit fuel so that it is structurally
recursive; `replaceAll` supplies fuel `s.length`, which is enough whenever the
pattern is non-empty. -/

abbrev Str := List Char

/-- Boolean test that `p` is a prefix of `s` (what `str.replace` checks at the
current scan position). -/
def leadsWith : Str → Str → Bool
  | [], _ => true
  | _ :: _, [] => false
  | p :: ps, c :: cs => p == c && leadsWith ps cs

/-- Fueled left-to-right replace-all scan: at each position, if the pattern
matches, emit the replacement and skip the match, otherwise keep one
character and continue. -/
def replaceAllF (pat rep : Str) : Nat → Str → Str
  | 0, s => s
  | _ + 1, [] => []
  | fuel + 1, c :: t =>
    if leadsWith pat (c :: t) then rep ++ replaceAllF pat rep fuel ((c :: t).drop pat.length)
    else c :: replaceAllF pat rep fuel t

/-- Python `s.replace(pat, rep)` for a non-empty pattern. -/
def replaceAll (pat rep s : Str) : Str :=
  replaceAllF pat rep s.length s

/-- `encode_cb`: `s.replace("%", "%%").replace(" ", "_~_").replace("\n", "__nl__")`. -/
def encode_cb (s : Str) : Str :=
  replaceAll ['\n'] ['_', '_', 'n', 'l', '_', '_']
    (replaceAll [' '] ['_', '~', '_']
      (replaceAll ['%'] ['%', '%'] s))

/-- `decode_cb`: `s.replace("__nl__", "\n").replace("_~_", " ").replace("%%", "%")`. -/
def decode_cb (s : Str) : Str :=
  replaceAll ['%', '%'] ['%']
    (replaceAll ['_', '~', '_'] [' ']
      (replaceAll ['_', '_', 'n', 'l', '_', '_'] ['\n'] s))

/-- Character-wise expansion map (helper to describe the encoders). -/
def emap (f : Char → Str) : Str → Str
  | [] => []
  | c :: t => f c ++ emap f t

/-- The `%`-escaping step, character-wise. -/
def escPct (c : Char) : Str := if c = '%' then ['%', '%'] else [c]

/-- `%`-escaping followed by space-escaping, character-wise. -/
def escPctSp (c : Char) : Str :=
  if c = '%' then ['%', '%'] else if c = ' ' then ['_', '~', '_'] else [c]

/-- All three escaping steps, character-wise. -/
def escAll (c : Char) : Str :=
  if c = '%' then ['%', '%']
  else if c = ' ' then ['_', '~', '_']
  else if c = '\n' then ['_', '_', 'n', 'l', '_', '_'] else [c]

def dlookup {κ α : Type} [DecidableEq κ] : List (κ × α) → κ → Option α
  | [], _ => none
  | (a, b) :: t, k => if a = k then some b else dlookup t k

def dset {κ α : Type} [DecidableEq κ] : List (κ × α) → κ → α → List (κ × α)
  | [], k, v => [(k, v)]
  | (a, b) :: t, k, v => if a = k then (k, v) :: t else (a, b) :: dset t k v

def dgetD {κ α : Type} [DecidableEq κ] (m : List (κ × α)) (k : κ) (d : α) : α :=
  (dlookup m k).getD d

def dpop {κ α : Type} [DecidableEq κ] (m : List (κ × α)) (k : κ) : List (κ × α) :=
  m.filter (fun p => !(p.1 == k))

/-- `{x: v for x in xs}` — dict comprehension with a constant value. -/
def pyDict {κ : Type} [DecidableEq κ] {α : Type} (xs : List κ) (v : α) : List (κ × α) :=
  xs.foldl (fun m x => dset m x v) []

/-- The status cycle in `cb_toggle_student` (lines 483-489): `nxt` defaults to
`"present"`, and the if/elif chain sends present → sababsiz → sababli → present. -/
def toggleCycle (current : String) : String :=
  if current = "present" then "sababsiz"
  else if current = "sababsiz" then "sababli"
  else if current = "sababli" then "present"
  else "present"

/-- `status_map = {s: "present" for s in students}` (cb_select_group line 455). -/
def statusInit (students : List String) : List (String × String) :=
  pyDict students ("present")

/-- One toggle action on the status map:
`current = status_map.get(student, "present"); status_map[student] = nxt`. -/
def toggleStudent (m : List (String × String)) (student : String) : List (String × String) :=
  dset m student (toggleCycle (dgetD m student ("present")))

/-- `cb_bulk`: rebuild the whole map with a uniform status
(`"present"` for the present action, `"sababsiz"` otherwise). -/
def bulkSet (students : List String) (action : String) : List (String × String) :=
  if action = "present" then pyDict students ("present") else pyDict students ("sababsiz")

/-- Status maps reachable in an attendance-entry session on a fixed group
roster: initialisation at group selection, then any sequence of toggles of
roster members and bulk actions. -/
inductive ReachSM (students : List String) : List (String × String) → Prop where
  | init : ReachSM students (statusInit students)
  | toggle (m : List (String × String)) (s : String) (hs : s ∈ students)
      (hm : ReachSM students m) : ReachSM students (toggleStudent m s)
  | bulk (m : List (String × String)) (a : String) (hm : ReachSM students m) :
      ReachSM students (bulkSet students a)

structure Recorder where
  id : Nat
  name : String
  username : String
deriving DecidableEq

/-- One attendance record as assembled by `record_attendance` (lines 245-258):
the status map is split into the three status lists by a filter on the value. -/
structure AttRec where
  group : String
  para : String
  present : List String
  sababsiz : List String
  sababli : List String
  status_map : List (String × String)
  recorder : Recorder
  timestamp : String
deriving DecidableEq

/-- The record built by `record_attendance` from a status map. -/
def mkAttRec (group para : String) (status_map : List (String × String))
    (recorder : Recorder) (timestamp : String) : AttRec :=
  { group := group
    para := para
    present := (status_map.filter (fun p => p.2 == "present")).map Prod.fst
    sababsiz := (status_map.filter (fun p => p.2 == "sababsiz")).map Prod.fst
    sababli := (status_map.filter (fun p => p.2 == "sababli")).map Prod.fst
    status_map := status_map
    recorder := recorder
    timestamp := timestamp }

structure GroupData where
  code : String
  students : List String
deriving DecidableEq

/-- The persisted document (db.json): groups, attendance keyed by date string,
and the single settings field the bot uses. -/
structure Doc where
  groups : List (String × GroupData)
  attendance : List (String × List AttRec)
  log_chat_id : Option Int
deriving DecidableEq

/-- `record_attendance` (lines 241-261): append the record under the date key
(creating the list if needed) in the persisted document. -/
def record_attendance (db : Doc) (date_key group para : String)
    (status_map : List (String × String)) (recorder : Recorder) (timestamp : String) : Doc :=
  { db with attendance := dset db.attendance date_key (dgetD db.attendance date_key [] ++ [mkAttRec group para status_map recorder timestamp]) }

structure Session where
  flow : String
  group : Option String := none
  status_map : Option (List (String × String)) := none
  selected_para : Option String := none
  mode : Option String := none
  group_for_report : Option String := none
deriving DecidableEq

structure BotState where
  temp : List (Nat × Session)
  doc : Doc
deriving DecidableEq

inductive Resp where
  | ok
  | notice (s : String)
  | reply (s : String)
  | err (s : String)
deriving DecidableEq

/-- Denial text of `admin_only_message` (line 93). -/
def msgAdminDeniedText : String := "Bu bot faqat adminlar uchun. Iltimos, admin bilan bog\x27laning."

/-- Denial text of `admin_only_callback` (line 106). -/
def cbAdminDeniedText : String := "Bu tugma faqat adminlarga ochiq."

/-- "No active process" notice used by the attendance handlers (e.g. line 477). -/
def noProcessText : String := "Jarayon topilmadi."

/-- `cb_toggle_student` (lines 470-498), wrapped in `admin_only_callback`:
require an attendance-flow session, then cycle the tapped student's status. -/
def cb_toggle_student (admins : List Nat) (uid : Nat) (student : String)
    (st : BotState) : BotState × Resp :=
  if uid ∈ admins then
    match dlookup st.temp uid with
    | none => (st, Resp.notice noProcessText)
    | some s =>
      if s.flow ≠ "attend" then (st, Resp.notice noProcessText)
      else
        match s.status_map with
        | none => (st, Resp.err ("KeyError"))
        | some m =>
          let m' := dset m student (toggleCycle (dgetD m student ("present")))
          ({ st with temp := dset st.temp uid { s with status_map := some m' } }, Resp.ok)
  else (st, Resp.notice cbAdminDeniedText)

/-- `cb_bulk` (lines 500-519), wrapped in `admin_only_callback`: require an
attendance-flow session, then rebuild the status map uniformly from the
group's current roster in the document. -/
def cb_bulk (admins : List Nat) (uid : Nat) (action : String)
    (st : BotState) : BotState × Resp :=
  if uid ∈ admins then
    match dlookup st.temp uid with
    | none => (st, Resp.notice noProcessText)
    | some s =>
      if s.flow ≠ "attend" then (st, Resp.notice noProcessText)
      else
        match s.group with
        | none => (st, Resp.err ("KeyError"))
        | some g =>
          match dlookup st.doc.groups g with
          | none => (st, Resp.err ("KeyError"))
          | some gd =>
            let m' := bulkSet gd.students action
            ({ st with temp := dset st.temp uid { s with status_map := some m' } }, Resp.ok)
  else (st, Resp.notice cbAdminDeniedText)

/-- `cb_final_confirm` (lines 609-673), wrapped in `admin_only_callback`.
Note: the source checks only that a session exists (`if not state`), not its
flow; it then reads `state["group"]` and `state["status_map"]` (KeyError when
absent), defaults the period with `state.get("selected_para", "all")`, commits
via `record_attendance`, and clears `TEMP[uid]`. -/
def cb_final_confirm (admins : List Nat) (uid : Nat) (recorder_name recorder_username : String)
    (today timestamp : String) (st : BotState) : BotState × Resp :=
  if uid ∈ admins then
    match dlookup st.temp uid with
    | none => (st, Resp.notice noProcessText)
    | some s =>
      match s.group with
      | none => (st, Resp.err ("KeyError"))
      | some group =>
        match s.status_map with
        | none => (st, Resp.err ("KeyError"))
        | some m =>
          let para := s.selected_para.getD ("all")
          let doc' := record_attendance st.doc today group para m
            ⟨uid, recorder_name, recorder_username⟩ timestamp
          ({ temp := dpop st.temp uid, doc := doc' }, Resp.ok)
  else (st, Resp.notice cbAdminDeniedText)

/-- `cmd_cancel` (lines 900-907).  It has no admin decorator: any user's
`/cancel` runs the handler body directly. -/
def cmd_cancel (uid : Nat) (st : BotState) : BotState × Resp :=
  if (dlookup st.temp uid).isSome then
    ({ st with temp := dpop st.temp uid }, Resp.reply ("Jarayon bekor qilindi."))
  else (st, Resp.reply ("Hech qanday jarayon yo\x27q."))

/-- An example empty document (fresh db.json). -/
def docEx : Doc := { groups := [], attendance := [], log_chat_id := none }

/-- An example report-flow session (`TEMP[uid] = {"flow": "report", "mode": "daily"}`). -/
def reportSessionEx : Session := { flow := "report", mode := some ("daily") }

/-- An example attendance-flow session with no selected period. -/
def attendSessionEx : Session :=
  { flow := "attend", group := some ("G"), status_map := some [("A", "present")] }

def dbFileName : String := "db.json"

inductive FsOp where
  | openTrunc : String → FsOp
  | write : String → String → FsOp
  | rename : String → String → FsOp
deriving DecidableEq

def isRenameOp : FsOp → Bool
  | FsOp.rename _ _ => true
  | _ => false

/-- The file-system operations performed by `save_db(db)`:
`open(DB_FILE, "w")` (truncate in place) then `json.dump(db, f)` (write). -/
def save_db_ops (dump : Doc → String) (db : Doc) : List FsOp :=
  [FsOp.openTrunc dbFileName, FsOp.write dbFileName (dump db)]

/-- Effect of one file-system operation on file contents. -/
def applyFsOp (fs : String → Option String) (op : FsOp) : String → Option String :=
  match op with
  | FsOp.openTrunc p => fun q => if q = p then some "" else fs q
  | FsOp.write p s => fun q => if q = p then some ((fs p).getD "" ++ s) else fs q
  | FsOp.rename p q => fun r => if r = q then fs p else if r = p then none else fs r

/-- Run a prefix of an operation list over a file system (a crash after `k`
operations leaves the contents `runFs fs (ops.take k)`). -/
def runFs (fs : String → Option String) (ops : List FsOp) : String → Option String :=
  ops.foldl applyFsOp fs

/-- An example non-trivial serialiser and old on-disk state for the C5
counterexample. -/
def dumpEx : Doc → String := fun _ => "NEWDOC"

def fsEx : String → Option String := fun p => if p = dbFileName then some ("OLDDOC") else none

/-- `restore_db(file_path)` (lines 179-188): read and parse the snapshot;
on any failure return `False` and touch nothing; on success `save_db(data)`
replaces the live document and return `True`. -/
def restore_db (parse : String → Option Doc) (dump : Doc → String)
    (fs : String → Option String) (path : String) : Bool × (String → Option String) :=
  match fs path with
  | none => (false, fs)
  | some content =>
    match parse content with
    | none => (false, fs)
    | some data => (true, fun q => if q = dbFileName then some (dump data) else fs q)

/-- An unparseable snapshot file system for the C6 witness: the snapshot
exists but the parser rejects its contents. -/
def fsBadSnapshotEx : String → Option String :=
  fun p => if p = "backups/db_backup_x.json" then some ("not json") else none

def parseNoneEx : String → Option Doc := fun _ => none

def isLeap (y : Nat) : Bool := (y % 4 == 0 && y % 100 != 0) || y % 400 == 0

def daysInMonth (y m : Nat) : Nat :=
  if m = 2 then (if isLeap y then 29 else 28)
  else if m = 4 ∨ m = 6 ∨ m = 9 ∨ m = 11 then 30 else 31

structure PyDate where
  y : Nat
  m : Nat
  d : Nat
  hm1 : 1 ≤ m
  hm2 : m ≤ 12
  hd1 : 1 ≤ d
  hd2 : d ≤ daysInMonth y m

/-- Python date comparison (lexicographic). -/
def dateLe (a b : PyDate) : Prop :=
  a.y < b.y ∨ (a.y = b.y ∧ (a.m < b.m ∨ (a.m = b.m ∧ a.d ≤ b.d)))

instance dateLeDecidable (a b : PyDate) : Decidable (dateLe a b) := by
  unfold dateLe
  infer_instance

/-- `cur + timedelta(days=1)`. -/
def nextDay (t : PyDate) : PyDate :=
  if h : t.d < daysInMonth t.y t.m then
    { y := t.y, m := t.m, d := t.d + 1, hm1 := t.hm1, hm2 := t.hm2, hd1 := by omega, hd2 := h }
  else if h2 : t.m < 12 then
    { y := t.y, m := t.m + 1, d := 1, hm1 := by omega, hm2 := by omega, hd1 := le_rfl,
      hd2 := by
        unfold daysInMonth
        split
        · split <;> omega
        · split <;> omega }
  else
    { y := t.y + 1, m := 1, d := 1, hm1 := le_rfl, hm2 := by omega, hd1 := le_rfl,
      hd2 := by
        unfold daysInMonth
        split
        · split <;> omega
        · split <;> omega }

/-- A strictly monotone linearisation of valid dates (only used for
termination and ordering arguments). -/
def ordKey (t : PyDate) : Nat := t.y * 512 + t.m * 32 + t.d

def pad2 (n : Nat) : String := if n < 10 then "0" ++ toString n else toString n

def pad4 (n : Nat) : String :=
  if n < 10 then "000" ++ toString n
  else if n < 100 then "00" ++ toString n
  else if n < 1000 then "0" ++ toString n
  else toString n

/-- `strftime("%Y-%m-%d")`. -/
def toKey (t : PyDate) : String := pad4 t.y ++ "-" ++ pad2 t.m ++ "-" ++ pad2 t.d

/-- `get_attendance_by_date`: `db.get("attendance", {}).get(date_key, [])`. -/
def get_attendance_by_date (db : Doc) (date_key : String) : List AttRec :=
  dgetD db.attendance date_key []

/-- `get_attendance_in_range`: walk day by day from the start date while it is
`<=` the end date, concatenating the records stored under each day's key. -/
def get_attendance_in_range (db : Doc) (s e : PyDate) : List AttRec :=
  if h : dateLe s e then
    dgetD db.attendance (toKey s) [] ++ get_attendance_in_range db (nextDay s) e
  else []
termination_by ordKey e + 1 - ordKey s
decreasing_by
  simp_wf
  have hsm1 := s.hm1
  have hsm2 := s.hm2
  have hsd1 := s.hd1
  have hsdim := s.hd2
  have hdm : daysInMonth s.y s.m ≤ 31 := by
    unfold daysInMonth
    split
    · split <;> omega
    · split <;> omega
  have hem1 := e.hm1
  have hem2 := e.hm2
  have hed1 := e.hd1
  have hse : ordKey s ≤ ordKey e := by
    unfold dateLe at h
    unfold ordKey
    omega
  have hlt : ordKey s < ordKey (nextDay s) := by
    unfold nextDay
    split
    · show ordKey s < s.y * 512 + s.m * 32 + (s.d + 1)
      unfold ordKey
      omega
    · split
      · show ordKey s < s.y * 512 + (s.m + 1) * 32 + 1
        unfold ordKey
        omega
      · show ordKey s < (s.y + 1) * 512 + 1 * 32 + 1
        unfold ordKey
        omega
  omega

/-- The month-selection keyboard `month_kb` (lines 377-387): the offered
(label, index) pairs, omitting June, July and August. -/
def month_kb_months : List (String × Nat) :=
  [("Yanvar", 1), ("Fevral", 2), ("Mart", 3), ("Aprel", 4), ("May", 5),
   ("Sentabr", 9), ("Oktabr", 10), ("Noyabr", 11), ("Dekabr", 12)]

/-- January 1 of a year (start of the yearly report range). -/
def jan1 (y : Nat) : PyDate :=
  { y := y, m := 1, d := 1, hm1 := le_rfl, hm2 := by omega, hd1 := le_rfl,
    hd2 := by
      unfold daysInMonth
      split
      · split <;> omega
      · split <;> omega }

/-- December 31 of a year (end of the yearly report range). -/
def dec31 (y : Nat) : PyDate :=
  { y := y, m := 12, d := 31, hm1 := by omega, hm2 := le_rfl, hd1 := by omega,
    hd2 := by simp [daysInMonth] }

/-- A concrete date in an excluded month (June 15, 2025). -/
def juneEx : PyDate :=
  { y := 2025, m := 6, d := 15, hm1 := by omega, hm2 := by omega, hd1 := by omega,
    hd2 := by norm_num [daysInMonth] }

/-- A concrete stored record for the report-range witnesses. -/
def recEx : AttRec := mkAttRec ("G") ("1") [("A", "present")] ⟨1, "N", "u"⟩ ("ts")

/-- A document with one record stored under June 15, 2025. -/
def dbJuneEx : Doc :=
  { groups := [], attendance := [(toKey juneEx, [recEx])], log_chat_id := none }

/-- A concrete date and document for the C8 witness (March 10, 2025). -/
def marchEx : PyDate :=
  { y := 2025, m := 3, d := 10, hm1 := by omega, hm2 := by omega, hd1 := by omega,
    hd2 := by norm_num [daysInMonth] }

def rec8Ex : AttRec := mkAttRec ("G") ("2") [("B", "sababsiz")] ⟨2, "M", "v"⟩ ("ts")

def dbMarchEx : Doc :=
  { groups := [], attendance := [(toKey marchEx, [rec8Ex])], log_chat_id := none }

/-! ## Theorems -/

theorem replaceAllF_fuel (pat rep : Str) (hpat : pat ≠ []) :
    ∀ f₁ f₂ s, s.length ≤ f₁ → s.length ≤ f₂ →
      replaceAllF pat rep f₁ s = replaceAllF pat rep f₂ s := by
  intro f₁
  induction f₁ using Nat.strong_induction_on with
  | _ f₁ ih =>
    intro f₂ s h1 h2
    match s with
    | [] =>
      cases f₁ <;> cases f₂ <;> rfl
    | c :: t =>
      match f₁, f₂ with
      | f₁' + 1, f₂' + 1 =>
        have ht1 : t.length ≤ f₁' := by simp only [List.length_cons] at h1; omega
        have ht2 : t.length ≤ f₂' := by simp only [List.length_cons] at h2; omega
        simp only [replaceAllF]
        by_cases h : leadsWith pat (c :: t) = true
        · rw [if_pos h, if_pos h]
          have hlen : ((c :: t).drop pat.length).length ≤ t.length := by
            rw [List.length_drop]
            cases pat with
            | nil => exact absurd rfl hpat
            | cons p ps => simp only [List.length_cons]; omega
          rw [ih f₁' (by omega) f₂' _ (by omega) (by omega)]
        · rw [if_neg h, if_neg h]
          rw [ih f₁' (by omega) f₂' t ht1 ht2]

theorem replaceAll_nil (pat rep : Str) : replaceAll pat rep [] = [] := rfl

theorem replaceAll_cons (pat rep : Str) (hpat : pat ≠ []) (c : Char) (t : Str) :
    replaceAll pat rep (c :: t) =
      if leadsWith pat (c :: t) then rep ++ replaceAll pat rep ((c :: t).drop pat.length)
      else c :: replaceAll pat rep t := by
  show replaceAllF pat rep (t.length + 1) (c :: t) = _
  simp only [replaceAllF]
  by_cases h : leadsWith pat (c :: t) = true
  · rw [if_pos h, if_pos h]
    have hlen : ((c :: t).drop pat.length).length ≤ t.length := by
      rw [List.length_drop]
      cases pat with
      | nil => exact absurd rfl hpat
      | cons p ps => simp only [List.length_cons]; omega
    rw [replaceAllF_fuel pat rep hpat t.length ((c :: t).drop pat.length).length _ hlen le_rfl]
    rfl
  · rw [if_neg h, if_neg h]
    rfl

/-- A single-character pattern replace is a character-wise map. -/
theorem replaceAll_single (p : Char) (rep : Str) (s : Str) :
    replaceAll [p] rep s = emap (fun c => if c = p then rep else [c]) s := by
  induction s with
  | nil => rfl
  | cons c t ih =>
    rw [replaceAll_cons _ _ (by simp) c t]
    by_cases h : c = p
    · subst h
      simp [leadsWith, emap, ih]
    · have : leadsWith [p] (c :: t) = false := by
        simp [leadsWith]
        exact fun hh => absurd hh.symm h
      rw [this]
      simp [emap, ih, if_neg h]

theorem emap_append (f : Char → Str) (a b : Str) :
    emap f (a ++ b) = emap f a ++ emap f b := by
  induction a with
  | nil => rfl
  | cons c t ih => simp [emap, ih]

theorem emap_emap (f g : Char → Str) (s : Str) :
    emap g (emap f s) = emap (fun c => emap g (f c)) s := by
  induction s with
  | nil => rfl
  | cons c t ih => simp [emap, emap_append, ih]

theorem emap_congr (f g : Char → Str) (h : ∀ c, f c = g c) (s : Str) :
    emap f s = emap g s := by
  induction s with
  | nil => rfl
  | cons c t ih => simp [emap, ih, h c]

/-- `encode_cb` is the character-wise expansion `escAll`. -/
theorem encode_cb_eq_emap (s : Str) : encode_cb s = emap escAll s := by
  unfold encode_cb
  rw [replaceAll_single, replaceAll_single, replaceAll_single, emap_emap, emap_emap]
  apply emap_congr
  intro c
  by_cases h1 : c = '%'
  · subst h1; rfl
  · by_cases h2 : c = ' '
    · subst h2; rfl
    · by_cases h3 : c = '\n'
      · subst h3; rfl
      · simp [escAll, emap, h1, h2, h3]

theorem replaceAll_cons_pos (pat rep : Str) (hpat : pat ≠ []) (c : Char) (t : Str)
    (h : leadsWith pat (c :: t) = true) :
    replaceAll pat rep (c :: t) = rep ++ replaceAll pat rep ((c :: t).drop pat.length) := by
  rw [replaceAll_cons pat rep hpat c t, h]
  simp

theorem replaceAll_cons_neg (pat rep : Str) (hpat : pat ≠ []) (c : Char) (t : Str)
    (h : leadsWith pat (c :: t) = false) :
    replaceAll pat rep (c :: t) = c :: replaceAll pat rep t := by
  rw [replaceAll_cons pat rep hpat c t, h]
  simp

/-- Escaping `%` as `%%` is undone exactly by `replace("%%", "%")`. -/
theorem d3_inverts (s : Str) : replaceAll ['%', '%'] ['%'] (emap escPct s) = s := by
  induction s with
  | nil => rfl
  | cons c t ih =>
    by_cases h : c = '%'
    · subst h
      show replaceAll ['%', '%'] ['%'] ('%' :: '%' :: emap escPct t) = '%' :: t
      rw [replaceAll_cons_pos _ _ (by simp) _ _ (by rfl)]
      have hd : ('%' :: '%' :: emap escPct t).drop (['%', '%'].length) = emap escPct t := rfl
      rw [hd, ih]
      rfl
    · have he : emap escPct (c :: t) = c :: emap escPct t := by simp [emap, escPct, h]
      rw [he]
      have hlw : leadsWith ['%', '%'] (c :: emap escPct t) = false := by
        simp only [leadsWith]
        have hb : ('%' == c) = false := by rw [beq_eq_false_iff_ne]; exact Ne.symm h
        rw [hb, Bool.false_and]
      rw [replaceAll_cons_neg _ _ (by simp) _ _ hlw, ih]

/-- Escaping spaces as `_~_` is undone exactly by `replace("_~_", " ")`,
provided the original string has no underscore. -/
theorem d2_inverts (s : Str) (hs : '_' ∉ s) :
    replaceAll ['_', '~', '_'] [' '] (emap escPctSp s) = emap escPct s := by
  induction s with
  | nil => rfl
  | cons c t ih =>
    have hc : c ≠ '_' := fun hh => hs (hh ▸ List.mem_cons_self c t)
    have ht : '_' ∉ t := fun hh => hs (List.mem_cons_of_mem c hh)
    by_cases h1 : c = '%'
    · subst h1
      show replaceAll ['_', '~', '_'] [' '] ('%' :: '%' :: emap escPctSp t) =
        emap escPct ('%' :: t)
      rw [replaceAll_cons_neg _ _ (by simp) _ _ (by rfl)]
      rw [replaceAll_cons_neg _ _ (by simp) _ _ (by rfl)]
      rw [ih ht]
      rfl
    · by_cases h2 : c = ' '
      · subst h2
        show replaceAll ['_', '~', '_'] [' '] ('_' :: '~' :: '_' :: emap escPctSp t) =
          emap escPct (' ' :: t)
        rw [replaceAll_cons_pos _ _ (by simp) _ _ (by rfl)]
        have hd : ('_' :: '~' :: '_' :: emap escPctSp t).drop (['_', '~', '_'].length) =
          emap escPctSp t := rfl
        rw [hd, ih ht]
        rfl
      · have he : emap escPctSp (c :: t) = c :: emap escPctSp t := by
          simp [emap, escPctSp, h1, h2]
        rw [he]
        have hlw : leadsWith ['_', '~', '_'] (c :: emap escPctSp t) = false := by
          simp only [leadsWith]
          have hb : ('_' == c) = false := by rw [beq_eq_false_iff_ne]; exact Ne.symm hc
          rw [hb, Bool.false_and]
        rw [replaceAll_cons_neg _ _ (by simp) _ _ hlw, ih ht]
        have hpe : emap escPct (c :: t) = c :: emap escPct t := by simp [emap, escPct, h1]
        rw [hpe]

/-- Escaping newlines as `__nl__` is undone exactly by `replace("__nl__", "\n")`,
provided the original string has no underscore. -/
theorem d1_inverts (s : Str) (hs : '_' ∉ s) :
    replaceAll ['_', '_', 'n', 'l', '_', '_'] ['\n'] (emap escAll s) = emap escPctSp s := by
  induction s with
  | nil => rfl
  | cons c t ih =>
    have hc : c ≠ '_' := fun hh => hs (hh ▸ List.mem_cons_self c t)
    have ht : '_' ∉ t := fun hh => hs (List.mem_cons_of_mem c hh)
    by_cases h1 : c = '%'
    · subst h1
      show replaceAll ['_', '_', 'n', 'l', '_', '_'] ['\n'] ('%' :: '%' :: emap escAll t) =
        emap escPctSp ('%' :: t)
      rw [replaceAll_cons_neg _ _ (by simp) _ _ (by rfl)]
      rw [replaceAll_cons_neg _ _ (by simp) _ _ (by rfl)]
      rw [ih ht]
      rfl
    · by_cases h2 : c = ' '
      · subst h2
        show replaceAll ['_', '_', 'n', 'l', '_', '_'] ['\n']
            ('_' :: '~' :: '_' :: emap escAll t) = emap escPctSp (' ' :: t)
        rw [replaceAll_cons_neg _ _ (by simp) _ _ (by rfl)]
        rw [replaceAll_cons_neg _ _ (by simp) _ _ (by rfl)]
        have hlw3 : leadsWith ['_', '_', 'n', 'l', '_', '_'] ('_' :: emap escAll t) = false := by
          show (('_' == '_') && leadsWith ['_', 'n', 'l', '_', '_'] (emap escAll t)) = false
          rw [show ('_' == '_') = true from rfl, Bool.true_and]
          match t with
          | [] => rfl
          | c' :: t'' =>
            have hc' : c' ≠ '_' := fun hh => ht (hh ▸ List.mem_cons_self c' t'')
            by_cases g1 : c' = '%'
            · subst g1; rfl
            · by_cases g2 : c' = ' '
              · subst g2; rfl
              · by_cases g3 : c' = '\n'
                · subst g3; rfl
                · have he : emap escAll (c' :: t'') = c' :: emap escAll t'' := by
                    simp [emap, escAll, g1, g2, g3]
                  rw [he]
                  simp only [leadsWith]
                  have hb : ('_' == c') = false := by
                    rw [beq_eq_false_iff_ne]; exact Ne.symm hc'
                  rw [hb, Bool.false_and]
        rw [replaceAll_cons_neg _ _ (by simp) _ _ hlw3, ih ht]
        rfl
      · by_cases h3 : c = '\n'
        · subst h3
          show replaceAll ['_', '_', 'n', 'l', '_', '_'] ['\n']
              ('_' :: '_' :: 'n' :: 'l' :: '_' :: '_' :: emap escAll t) =
            emap escPctSp ('\n' :: t)
          rw [replaceAll_cons_pos _ _ (by simp) _ _ (by rfl)]
          have hd : ('_' :: '_' :: 'n' :: 'l' :: '_' :: '_' :: emap escAll t).drop
              (['_', '_', 'n', 'l', '_', '_'].length) = emap escAll t := rfl
          rw [hd, ih ht]
          rfl
        · have he : emap escAll (c :: t) = c :: emap escAll t := by
            simp [emap, escAll, h1, h2, h3]
          rw [he]
          have hlw : leadsWith ['_', '_', 'n', 'l', '_', '_'] (c :: emap escAll t) = false := by
            simp only [leadsWith]
            have hb : ('_' == c) = false := by rw [beq_eq_false_iff_ne]; exact Ne.symm hc
            rw [hb, Bool.false_and]
          rw [replaceAll_cons_neg _ _ (by simp) _ _ hlw, ih ht]
          have hpe : emap escPctSp (c :: t) = c :: emap escPctSp t := by
            simp [emap, escPctSp, h1, h2]
          rw [hpe]

/-- Claim C1 (counterexample): the round-trip `decode_cb (encode_cb x) = x` fails at the
concrete input `"_~_"`, which encodes to itself but decodes to a single space, so the
codec pair is not an exact inverse on all strings. -/
theorem c1_roundtrip_counterexample :
    decode_cb (encode_cb ['_', '~', '_']) = [' '] ∧
      decode_cb (encode_cb ['_', '~', '_']) ≠ ['_', '~', '_'] := by
  decide

/-- Claim C1 (amended): for every string containing no underscore character,
decoding the encoding yields the original string: `decode_cb (encode_cb x) = x`.
(The unrestricted claim fails because the escape sequences `_~_` and `__nl__` are
built from unescaped characters, e.g. the input `"_~_"` decodes to `" "`.) -/
theorem c1_roundtrip (s : Str) (hs : '_' ∉ s) : decode_cb (encode_cb s) = s := by
  rw [encode_cb_eq_emap]
  unfold decode_cb
  rw [d1_inverts s hs, d2_inverts s hs, d3_inverts s]

/-- Witness for C1: the round-trip theorem applied at a concrete mixed-content string
(letters, space, newline, percent, tilde). -/
theorem c1_roundtrip_witness :
    ('_' ∉ ['a', ' ', 'b', '\n', '%', '~']) ∧
      decode_cb (encode_cb ['a', ' ', 'b', '\n', '%', '~']) = ['a', ' ', 'b', '\n', '%', '~'] :=
  ⟨by decide, c1_roundtrip ['a', ' ', 'b', '\n', '%', '~'] (by decide)⟩

/-! ## Python dict model

Association lists with unique keys model Python dicts: `dlookup` is `d.get(k)`,
`dset` is `d[k] = v` (replace in place, else append, preserving insertion
order), `dgetD` is `d.get(k, default)`, `dpop` is `d.pop(k, None)`, and
`pyDict` builds a dict by successive insertion (comprehension semantics). -/

theorem dlookup_cons {κ α : Type} [DecidableEq κ] (a : κ) (b : α) (t : List (κ × α)) (k : κ) :
    dlookup ((a, b) :: t) k = if a = k then some b else dlookup t k := rfl

theorem keys_dset {κ α : Type} [DecidableEq κ] (m : List (κ × α)) (k : κ) (v : α)
    (h : (dlookup m k).isSome) : (dset m k v).map Prod.fst = m.map Prod.fst := by
  induction m with
  | nil => simp [dlookup] at h
  | cons p t ih =>
    obtain ⟨a, b⟩ := p
    by_cases hk : a = k
    · subst hk
      simp [dset]
    · rw [dlookup_cons] at h
      rw [if_neg hk] at h
      simp [dset, if_neg hk, ih h]

theorem mem_dset {κ α : Type} [DecidableEq κ] (m : List (κ × α)) (k : κ) (v : α)
    (p : κ × α) (hp : p ∈ dset m k v) : p ∈ m ∨ p = (k, v) := by
  induction m with
  | nil => simp [dset] at hp; right; exact hp
  | cons q t ih =>
    obtain ⟨a, b⟩ := q
    by_cases hk : a = k
    · subst hk
      simp [dset] at hp
      rcases hp with hp | hp
      · right; exact hp
      · left; exact List.mem_cons_of_mem _ hp
    · simp [dset, if_neg hk] at hp
      rcases hp with hp | hp
      · left; simp [hp]
      · rcases ih hp with hh | hh
        · left; exact List.mem_cons_of_mem _ hh
        · right; exact hh

theorem dlookup_isSome_of_mem_keys {κ α : Type} [DecidableEq κ] (m : List (κ × α)) (k : κ)
    (h : k ∈ m.map Prod.fst) : (dlookup m k).isSome := by
  induction m with
  | nil => simp at h
  | cons p t ih =>
    obtain ⟨a, b⟩ := p
    by_cases hk : a = k
    · simp [dlookup_cons, hk]
    · simp at h
      rcases h with h | h
      · exact absurd h.symm hk
      · rw [dlookup_cons, if_neg hk]
        exact ih (by simpa using h)

theorem dlookup_eq_none_of_not_mem_keys {κ α : Type} [DecidableEq κ] (m : List (κ × α)) (k : κ)
    (h : k ∉ m.map Prod.fst) : dlookup m k = none := by
  induction m with
  | nil => rfl
  | cons p t ih =>
    obtain ⟨a, b⟩ := p
    simp at h
    rw [dlookup_cons, if_neg (fun hh => h.1 hh.symm)]
    apply ih
    intro hmem
    simp at hmem
    obtain ⟨x, hx⟩ := hmem
    exact h.2 x hx

theorem mem_keys_of_mem {κ α : Type} [DecidableEq κ] {m : List (κ × α)} {p : κ × α}
    (h : p ∈ m) : p.1 ∈ m.map Prod.fst :=
  List.mem_map_of_mem Prod.fst h

/-- With pairwise-distinct keys, an entry is determined by its key. -/
theorem value_unique_of_nodup_keys {κ α : Type} [DecidableEq κ] (m : List (κ × α))
    (hnd : (m.map Prod.fst).Nodup) (k : κ) (v₁ v₂ : α)
    (h₁ : (k, v₁) ∈ m) (h₂ : (k, v₂) ∈ m) : v₁ = v₂ := by
  induction m with
  | nil => simp at h₁
  | cons p t ih =>
    obtain ⟨a, b⟩ := p
    simp at h₁ h₂
    simp at hnd
    rcases h₁ with ⟨ha1, hb1⟩ | h₁ <;> rcases h₂ with ⟨ha2, hb2⟩ | h₂
    · rw [hb1, hb2]
    · exact absurd (ha1 ▸ h₂) (hnd.1 v₂)
    · exact absurd (ha2 ▸ h₁) (hnd.1 v₁)
    · exact ih hnd.2 h₁ h₂

theorem dset_append_of_none {κ α : Type} [DecidableEq κ] (acc : List (κ × α)) (k : κ) (v : α)
    (h : dlookup acc k = none) : dset acc k v = acc ++ [(k, v)] := by
  induction acc with
  | nil => rfl
  | cons q r ih =>
    obtain ⟨a, b⟩ := q
    rw [dlookup_cons] at h
    by_cases ha : a = k
    · rw [if_pos ha] at h; simp at h
    · rw [if_neg ha] at h
      simp only [dset, if_neg ha, List.cons_append]
      rw [ih h]

theorem dlookup_append_single_none {κ α : Type} [DecidableEq κ] (acc : List (κ × α))
    (x y : κ) (v : α) (h : dlookup acc y = none) (hxy : x ≠ y) :
    dlookup (acc ++ [(x, v)]) y = none := by
  induction acc with
  | nil =>
    simp only [List.nil_append, dlookup_cons, if_neg hxy]
    rfl
  | cons q r ih =>
    obtain ⟨a, b⟩ := q
    rw [dlookup_cons] at h
    by_cases ha : a = y
    · rw [if_pos ha] at h; simp at h
    · rw [if_neg ha] at h
      simp only [List.cons_append, dlookup_cons, if_neg ha]
      exact ih h

/-- Building a dict over pairwise-distinct keys with a constant value is just a map. -/
theorem pyDict_eq_map {κ : Type} [DecidableEq κ] {α : Type} (xs : List κ) (v : α)
    (hnd : xs.Nodup) : pyDict xs v = xs.map (fun x => (x, v)) := by
  have general : ∀ (ys : List κ) (acc : List (κ × α)), ys.Nodup →
      (∀ x ∈ ys, dlookup acc x = none) →
      ys.foldl (fun m x => dset m x v) acc = acc ++ ys.map (fun x => (x, v)) := by
    intro ys
    induction ys with
    | nil => intro acc _ _; simp
    | cons x t ih =>
      intro acc hnd hacc
      simp only [List.foldl_cons]
      rw [dset_append_of_none acc x v (hacc x (List.mem_cons_self x t))]
      rw [ih (acc ++ [(x, v)]) (List.Nodup.of_cons hnd) ?_]
      · simp
      · intro y hy
        have hxy : x ≠ y := by
          intro hh
          rw [hh] at hnd
          exact (List.nodup_cons.mp hnd).1 hy
        exact dlookup_append_single_none acc x y v (hacc y (List.mem_cons_of_mem x hy)) hxy
  have := general xs [] hnd (fun _ _ => rfl)
  simpa [pyDict] using this

/-! ## Attendance data model and session status map
(bot.py: `cb_select_group` line 455, `cb_toggle_student` lines 481-490,
`cb_bulk` lines 512-516, `record_attendance` lines 241-261).

Statuses are the literal strings `"present"`, `"sababsiz"`, `"sababli"` used by
the source.  A session status map is a Python dict from student name to status. -/

/-- Invariant of reachable status maps: the keys are exactly the roster (in
order) and every value is one of the three statuses. -/
theorem reachSM_invariant (students : List String) (hnd : students.Nodup)
    (m : List (String × String)) (hm : ReachSM students m) :
    m.map Prod.fst = students ∧
      ∀ p ∈ m, p.2 = "present" ∨ p.2 = "sababsiz" ∨ p.2 = "sababli" := by
  induction hm with
  | init =>
    constructor
    · rw [statusInit, pyDict_eq_map students _ hnd, List.map_map]
      have h0 : (Prod.fst ∘ fun x : String => (x, ("present" : String))) = id := rfl
      rw [h0, List.map_id]
    · intro p hp
      rw [statusInit, pyDict_eq_map students _ hnd] at hp
      simp at hp
      obtain ⟨x, hx, hp⟩ := hp
      left
      rw [← hp]
  | toggle m s hs hm ih =>
    obtain ⟨hkeys, hvals⟩ := ih
    constructor
    · rw [toggleStudent, keys_dset]
      · exact hkeys
      · exact dlookup_isSome_of_mem_keys m s (hkeys ▸ hs)
    · intro p hp
      rcases mem_dset m s _ p hp with hmem | heq
      · exact hvals p hmem
      · rw [heq]
        simp only [toggleCycle]
        split
        · right; left; rfl
        · split
          · right; right; rfl
          · split
            · left; rfl
            · left; rfl
  | bulk m a hm ih =>
    constructor
    · rw [bulkSet]
      split
      · rw [pyDict_eq_map students _ hnd, List.map_map]
        have h0 : (Prod.fst ∘ fun x : String => (x, ("present" : String))) = id := rfl
        rw [h0, List.map_id]
      · rw [pyDict_eq_map students _ hnd, List.map_map]
        have h0 : (Prod.fst ∘ fun x : String => (x, ("sababsiz" : String))) = id := rfl
        rw [h0, List.map_id]
    · intro p hp
      rw [bulkSet] at hp
      split at hp
      · rw [pyDict_eq_map students _ hnd] at hp
        simp at hp
        obtain ⟨x, hx, hp⟩ := hp
        left
        rw [← hp]
      · rw [pyDict_eq_map students _ hnd] at hp
        simp at hp
        obtain ⟨x, hx, hp⟩ := hp
        right; left
        rw [← hp]

/-- Claim C2: for every attendance record committed from a reachable
attendance-entry session on a duplicate-free roster, the three lists
present / sababsiz (absent unexcused) / sababli (absent excused) are pairwise
disjoint and their union is exactly the group's student set. -/
theorem c2_partition (students : List String) (hnd : students.Nodup)
    (m : List (String × String)) (hm : ReachSM students m)
    (group para : String) (recorder : Recorder) (timestamp : String) :
    (∀ x, (x ∈ (mkAttRec group para m recorder timestamp).present ∨
           x ∈ (mkAttRec group para m recorder timestamp).sababsiz ∨
           x ∈ (mkAttRec group para m recorder timestamp).sababli) ↔ x ∈ students) ∧
    (∀ x, x ∈ (mkAttRec group para m recorder timestamp).present →
          x ∉ (mkAttRec group para m recorder timestamp).sababsiz) ∧
    (∀ x, x ∈ (mkAttRec group para m recorder timestamp).present →
          x ∉ (mkAttRec group para m recorder timestamp).sababli) ∧
    (∀ x, x ∈ (mkAttRec group para m recorder timestamp).sababsiz →
          x ∉ (mkAttRec group para m recorder timestamp).sababli) := by
  obtain ⟨hkeys, hvals⟩ := reachSM_invariant students hnd m hm
  have hndk : (m.map Prod.fst).Nodup := hkeys ▸ hnd
  have hmemlist : ∀ (st : String) (x : String),
      (x ∈ ((m.filter (fun p => p.2 == st)).map Prod.fst) ↔ ∃ v, (x, v) ∈ m ∧ v = st) := by
    intro st x
    constructor
    · intro hx
      simp only [List.mem_map] at hx
      obtain ⟨p, hp, hpx⟩ := hx
      rw [List.mem_filter] at hp
      refine ⟨p.2, ?_, by simpa using hp.2⟩
      rw [← hpx]
      exact hp.1
    · intro ⟨v, hv, hvst⟩
      simp only [List.mem_map]
      refine ⟨(x, v), ?_, rfl⟩
      rw [List.mem_filter]
      exact ⟨hv, by simp [hvst]⟩
  refine ⟨?_, ?_, ?_, ?_⟩
  · intro x
    constructor
    · intro hx
      rcases hx with hx | hx | hx <;>
        (simp only [mkAttRec] at hx
         rw [hmemlist] at hx
         obtain ⟨v, hv, _⟩ := hx
         have := mem_keys_of_mem hv
         rw [hkeys] at this
         exact this)
    · intro hx
      have hxk : x ∈ m.map Prod.fst := hkeys ▸ hx
      simp only [List.mem_map] at hxk
      obtain ⟨p, hp, hpx⟩ := hxk
      obtain ⟨x₀, v⟩ := p
      simp at hpx
      rw [hpx] at hp
      rcases hvals (x, v) hp with hv | hv | hv
      · left; simp only [mkAttRec]; rw [hmemlist]; exact ⟨v, hp, hv⟩
      · right; left; simp only [mkAttRec]; rw [hmemlist]; exact ⟨v, hp, hv⟩
      · right; right; simp only [mkAttRec]; rw [hmemlist]; exact ⟨v, hp, hv⟩
  · intro x h1 h2
    simp only [mkAttRec] at h1 h2
    rw [hmemlist] at h1 h2
    obtain ⟨v1, hv1, he1⟩ := h1
    obtain ⟨v2, hv2, he2⟩ := h2
    have := value_unique_of_nodup_keys m hndk x v1 v2 hv1 hv2
    rw [he1, he2] at this
    exact absurd this (by decide)
  · intro x h1 h2
    simp only [mkAttRec] at h1 h2
    rw [hmemlist] at h1 h2
    obtain ⟨v1, hv1, he1⟩ := h1
    obtain ⟨v2, hv2, he2⟩ := h2
    have := value_unique_of_nodup_keys m hndk x v1 v2 hv1 hv2
    rw [he1, he2] at this
    exact absurd this (by decide)
  · intro x h1 h2
    simp only [mkAttRec] at h1 h2
    rw [hmemlist] at h1 h2
    obtain ⟨v1, hv1, he1⟩ := h1
    obtain ⟨v2, hv2, he2⟩ := h2
    have := value_unique_of_nodup_keys m hndk x v1 v2 hv1 hv2
    rw [he1, he2] at this
    exact absurd this (by decide)

/-- Witness for C2: a concrete session on roster [A, B, C] where B is toggled
once (to sababsiz); the partition property holds for the committed record. -/
theorem c2_partition_witness :
    (∀ x, (x ∈ (mkAttRec ("G") ("2") (toggleStudent (statusInit ["A", "B", "C"]) ("B"))
            ⟨1, "N", "u"⟩ ("t")).present ∨
           x ∈ (mkAttRec ("G") ("2") (toggleStudent (statusInit ["A", "B", "C"]) ("B"))
            ⟨1, "N", "u"⟩ ("t")).sababsiz ∨
           x ∈ (mkAttRec ("G") ("2") (toggleStudent (statusInit ["A", "B", "C"]) ("B"))
            ⟨1, "N", "u"⟩ ("t")).sababli) ↔ x ∈ ["A", "B", "C"]) ∧
    (∀ x, x ∈ (mkAttRec ("G") ("2") (toggleStudent (statusInit ["A", "B", "C"]) ("B"))
            ⟨1, "N", "u"⟩ ("t")).present →
          x ∉ (mkAttRec ("G") ("2") (toggleStudent (statusInit ["A", "B", "C"]) ("B"))
            ⟨1, "N", "u"⟩ ("t")).sababsiz) ∧
    (∀ x, x ∈ (mkAttRec ("G") ("2") (toggleStudent (statusInit ["A", "B", "C"]) ("B"))
            ⟨1, "N", "u"⟩ ("t")).present →
          x ∉ (mkAttRec ("G") ("2") (toggleStudent (statusInit ["A", "B", "C"]) ("B"))
            ⟨1, "N", "u"⟩ ("t")).sababli) ∧
    (∀ x, x ∈ (mkAttRec ("G") ("2") (toggleStudent (statusInit ["A", "B", "C"]) ("B"))
            ⟨1, "N", "u"⟩ ("t")).sababsiz →
          x ∉ (mkAttRec ("G") ("2") (toggleStudent (statusInit ["A", "B", "C"]) ("B"))
            ⟨1, "N", "u"⟩ ("t")).sababli) :=
  c2_partition ["A", "B", "C"] (by decide)
    (toggleStudent (statusInit ["A", "B", "C"]) ("B"))
    (ReachSM.toggle _ _ (by decide) ReachSM.init) ("G") ("2") ⟨1, "N", "u"⟩ ("t")

/-- Claim C3: the toggle operation cycles a status in the fixed order
present → sababsiz → sababli → present; hence toggling three times returns any
of the three statuses to its original value, and iterating the toggle any
number of times never leaves the three-status set. -/
theorem c3_toggle_cycle :
    (toggleCycle ("present") = "sababsiz" ∧ toggleCycle ("sababsiz") = "sababli" ∧
      toggleCycle ("sababli") = "present") ∧
    ∀ st : String, (st = "present" ∨ st = "sababsiz" ∨ st = "sababli") →
      (toggleCycle (toggleCycle (toggleCycle st)) = st ∧
       ∀ n : Nat, toggleCycle^[n] st = "present" ∨ toggleCycle^[n] st = "sababsiz" ∨
         toggleCycle^[n] st = "sababli") := by
  refine ⟨⟨rfl, rfl, rfl⟩, ?_⟩
  intro st hst
  constructor
  · rcases hst with h | h | h <;> (subst h; rfl)
  · intro n
    induction n with
    | zero => simpa using hst
    | succ k ih =>
      rw [Function.iterate_succ_apply']
      rcases ih with h | h | h <;> rw [h]
      · right; left; rfl
      · right; right; rfl
      · left; rfl

/-- Witness for C3: the cycle theorem applied at the concrete status
`"sababli"` and five iterations. -/
theorem c3_toggle_cycle_witness :
    toggleCycle (toggleCycle (toggleCycle ("sababli"))) = "sababli" ∧
      (toggleCycle^[5] ("sababli") = "present" ∨ toggleCycle^[5] ("sababli") = "sababsiz" ∨
        toggleCycle^[5] ("sababli") = "sababli") :=
  ⟨(c3_toggle_cycle.2 ("sababli") (Or.inr (Or.inr rfl))).1,
    (c3_toggle_cycle.2 ("sababli") (Or.inr (Or.inr rfl))).2 5⟩

/-! ## Handler layer (dispatcher state and responses)

`BotState` holds the per-admin ephemeral session map `TEMP` (bot.py line 79)
and the persisted document.  A `Session` models the Python dict stored in
`TEMP[uid]`: keys that may be absent are `Option`s.  A handler returns the new
state and an abstract response: `ok` for a normal render, `notice`/`reply` for
the exact notification texts the source sends, and `err` for an uncaught
Python exception inside the handler (e.g. `KeyError` from `state["group"]`). -/

theorem dlookup_dset_self {κ α : Type} [DecidableEq κ] (m : List (κ × α)) (k : κ) (v : α) :
    dlookup (dset m k v) k = some v := by
  induction m with
  | nil => simp [dset, dlookup_cons]
  | cons p t ih =>
    obtain ⟨a, b⟩ := p
    by_cases ha : a = k
    · simp [dset, if_pos ha, dlookup_cons]
    · simp [dset, if_neg ha, dlookup_cons, ih, ha]

/-- Claim C4 (counterexample): a final-confirm action arriving for an admin
whose current session is in the report flow is a session-state transition with
a mismatching flow, but the handler does not report the "no active process"
notice — it fails with a `KeyError` reading `state["group"]` (the report
session has no such key), sending nothing. -/
theorem c4_no_session_counterexample :
    cb_final_confirm [1] 1 ("N") ("u") ("2025-01-01") ("ts")
        { temp := [(1, reportSessionEx)], doc := docEx } =
      ({ temp := [(1, reportSessionEx)], doc := docEx }, Resp.err ("KeyError")) ∧
    Resp.err ("KeyError") ≠ Resp.notice noProcessText := by
  constructor
  · rfl
  · decide

/-- Claim C4 (amended): with no session entry for the operator, or with a
session whose flow is not the attendance flow (such sessions carry no group
key), the toggle and bulk handlers are exact no-ops that report the
"no active process" notice; the final-confirm handler also leaves the state
unchanged, but reports the notice only in the no-session case and otherwise
fails with a caught `KeyError` and sends no notice. -/
theorem c4_no_session_noop (admins : List Nat) (uid : Nat) (student action : String)
    (rn ru today ts : String) (st : BotState) (s : Session)
    (hadm : uid ∈ admins)
    (h : dlookup st.temp uid = none ∨
         (dlookup st.temp uid = some s ∧ s.flow ≠ "attend" ∧ s.group = none)) :
    cb_toggle_student admins uid student st = (st, Resp.notice noProcessText) ∧
    cb_bulk admins uid action st = (st, Resp.notice noProcessText) ∧
    (cb_final_confirm admins uid rn ru today ts st).1 = st ∧
    ((cb_final_confirm admins uid rn ru today ts st).2 = Resp.notice noProcessText ∨
     (cb_final_confirm admins uid rn ru today ts st).2 = Resp.err ("KeyError")) := by
  rcases h with h | ⟨h, hflow, hgroup⟩
  · refine ⟨?_, ?_, ?_, Or.inl ?_⟩ <;>
      simp [cb_toggle_student, cb_bulk, cb_final_confirm, hadm, h]
  · refine ⟨?_, ?_, ?_, Or.inr ?_⟩ <;>
      simp [cb_toggle_student, cb_bulk, cb_final_confirm, hadm, h, hflow, hgroup]

/-- Witness for C4: the no-op theorem applied to a concrete state holding a
report-flow session for admin 1. -/
theorem c4_no_session_noop_witness :
    cb_toggle_student [1] 1 ("A") { temp := [(1, reportSessionEx)], doc := docEx } =
      ({ temp := [(1, reportSessionEx)], doc := docEx }, Resp.notice noProcessText) ∧
    cb_bulk [1] 1 ("present") { temp := [(1, reportSessionEx)], doc := docEx } =
      ({ temp := [(1, reportSessionEx)], doc := docEx }, Resp.notice noProcessText) ∧
    (cb_final_confirm [1] 1 ("N") ("u") ("2025-01-01") ("ts")
        { temp := [(1, reportSessionEx)], doc := docEx }).1 =
      { temp := [(1, reportSessionEx)], doc := docEx } ∧
    ((cb_final_confirm [1] 1 ("N") ("u") ("2025-01-01") ("ts")
        { temp := [(1, reportSessionEx)], doc := docEx }).2 = Resp.notice noProcessText ∨
     (cb_final_confirm [1] 1 ("N") ("u") ("2025-01-01") ("ts")
        { temp := [(1, reportSessionEx)], doc := docEx }).2 = Resp.err ("KeyError")) :=
  c4_no_session_noop [1] 1 ("A") ("present") ("N") ("u") ("2025-01-01") ("ts")
    { temp := [(1, reportSessionEx)], doc := docEx } reportSessionEx (by decide)
    (Or.inr ⟨rfl, by decide, rfl⟩)

/-- Claim C9 (counterexample): the `/cancel` command handler has no admin
guard, so an operator off the allow-list is not rejected with a denial
message — the handler runs normally and replies with the "no process" text,
which is neither of the two constant denial messages. -/
theorem c9_unauthorized_counterexample :
    cmd_cancel 99 { temp := [], doc := docEx } =
      ({ temp := [], doc := docEx }, Resp.reply ("Hech qanday jarayon yo\x27q.")) ∧
    Resp.reply ("Hech qanday jarayon yo\x27q.") ≠ Resp.reply msgAdminDeniedText ∧
    Resp.reply ("Hech qanday jarayon yo\x27q.") ≠ Resp.notice cbAdminDeniedText := by
  refine ⟨rfl, ?_, ?_⟩ <;> decide

/-- Claim C9 (amended): every handler wrapped in the admin-only decorators
rejects an operator not on the allow-list with the fixed denial message and
changes nothing; the `/cancel` command is not guarded, but as long as every
session entry belongs to an admin (which is invariant, since only decorated
handlers create entries), a non-admin `/cancel` also changes nothing and
merely replies that no process exists. -/
theorem c9_unauthorized_no_side_effect (admins : List Nat) (uid : Nat)
    (student action rn ru today ts : String) (st : BotState)
    (hadm : uid ∉ admins) :
    cb_toggle_student admins uid student st = (st, Resp.notice cbAdminDeniedText) ∧
    cb_bulk admins uid action st = (st, Resp.notice cbAdminDeniedText) ∧
    cb_final_confirm admins uid rn ru today ts st = (st, Resp.notice cbAdminDeniedText) ∧
    ((∀ k ∈ st.temp.map Prod.fst, k ∈ admins) →
      cmd_cancel uid st = (st, Resp.reply ("Hech qanday jarayon yo\x27q."))) := by
  refine ⟨?_, ?_, ?_, ?_⟩
  · simp [cb_toggle_student, hadm]
  · simp [cb_bulk, hadm]
  · simp [cb_final_confirm, hadm]
  · intro hkeys
    have : dlookup st.temp uid = none := by
      apply dlookup_eq_none_of_not_mem_keys
      intro hmem
      exact hadm (hkeys uid hmem)
    simp [cmd_cancel, this]

/-- Witness for C9: the rejection theorem applied to a concrete non-admin
operator 2 against the allow-list [1] and a state with one admin session. -/
theorem c9_unauthorized_no_side_effect_witness :
    cb_toggle_student [1] 2 ("A") { temp := [(1, reportSessionEx)], doc := docEx } =
      ({ temp := [(1, reportSessionEx)], doc := docEx }, Resp.notice cbAdminDeniedText) ∧
    cb_bulk [1] 2 ("present") { temp := [(1, reportSessionEx)], doc := docEx } =
      ({ temp := [(1, reportSessionEx)], doc := docEx }, Resp.notice cbAdminDeniedText) ∧
    cb_final_confirm [1] 2 ("N") ("u") ("2025-01-01") ("ts")
        { temp := [(1, reportSessionEx)], doc := docEx } =
      ({ temp := [(1, reportSessionEx)], doc := docEx }, Resp.notice cbAdminDeniedText) ∧
    ((∀ k ∈ ({ temp := [(1, reportSessionEx)], doc := docEx } : BotState).temp.map Prod.fst,
        k ∈ [1]) →
      cmd_cancel 2 { temp := [(1, reportSessionEx)], doc := docEx } =
        ({ temp := [(1, reportSessionEx)], doc := docEx },
          Resp.reply ("Hech qanday jarayon yo\x27q."))) :=
  c9_unauthorized_no_side_effect [1] 2 ("A") ("present") ("N") ("u") ("2025-01-01") ("ts")
    { temp := [(1, reportSessionEx)], doc := docEx } (by decide)

/-- Claim C10: if final-confirm arrives for a session in which no period was
ever selected (`selected_para` absent), the commit still succeeds: the record
is appended under today's date key with period defaulting to `"all"`, the
session is cleared, and the handler answers normally. -/
theorem c10_default_para (admins : List Nat) (uid : Nat) (rn ru today ts : String)
    (st : BotState) (s : Session) (g : String) (m : List (String × String))
    (hadm : uid ∈ admins) (hs : dlookup st.temp uid = some s)
    (hg : s.group = some g) (hm : s.status_map = some m)
    (hpara : s.selected_para = none) :
    cb_final_confirm admins uid rn ru today ts st =
      ({ temp := dpop st.temp uid,
         doc := record_attendance st.doc today g ("all") m ⟨uid, rn, ru⟩ ts }, Resp.ok) ∧
    (mkAttRec g ("all") m ⟨uid, rn, ru⟩ ts).para = "all" ∧
    dlookup (record_attendance st.doc today g ("all") m ⟨uid, rn, ru⟩ ts).attendance today =
      some (dgetD st.doc.attendance today [] ++ [mkAttRec g ("all") m ⟨uid, rn, ru⟩ ts]) := by
  refine ⟨?_, rfl, ?_⟩
  · simp [cb_final_confirm, hadm, hs, hg, hm, hpara]
  · simp [record_attendance, dlookup_dset_self]

/-- Witness for C10: the default-period theorem applied to a concrete
attendance session for admin 1 with no selected period. -/
theorem c10_default_para_witness :
    cb_final_confirm [1] 1 ("N") ("u") ("2025-01-02") ("ts")
        { temp := [(1, attendSessionEx)], doc := docEx } =
      ({ temp := dpop [(1, attendSessionEx)] 1,
         doc := record_attendance docEx ("2025-01-02") ("G") ("all") [("A", "present")]
           ⟨1, "N", "u"⟩ ("ts") }, Resp.ok) ∧
    (mkAttRec ("G") ("all") [("A", "present")] ⟨1, "N", "u"⟩ ("ts")).para = "all" ∧
    dlookup (record_attendance docEx ("2025-01-02") ("G") ("all") [("A", "present")]
        ⟨1, "N", "u"⟩ ("ts")).attendance ("2025-01-02") =
      some (dgetD docEx.attendance ("2025-01-02") [] ++
        [mkAttRec ("G") ("all") [("A", "present")] ⟨1, "N", "u"⟩ ("ts")]) :=
  c10_default_para [1] 1 ("N") ("u") ("2025-01-02") ("ts")
    { temp := [(1, attendSessionEx)], doc := docEx }
    attendSessionEx ("G") [("A", "present")] (by decide) rfl rfl rfl rfl

/-! ## Persistence (bot.py `save_db` lines 162-164, `restore_db` lines 179-188)

`save_db` is modelled two ways.  For the atomicity claim, as the sequence of
file-system operations it performs: `open(DB_FILE, "w")` truncates the target
in place and `json.dump` then writes the serialised document — there is no
temporary file and no rename.  For the restore claim, as a functional update
of a file-system map.  The JSON serialiser/parser are abstract parameters:
nothing in these claims depends on their definitions. -/

/-- Claim C5 (counterexample): `save_db` does not write to a temporary
location and rename — its operation sequence contains no rename at all and
opens the target file itself with truncation; a crash between the truncating
open and the write leaves the database file empty, which is neither the old
nor the new document, i.e. a partially-written file. -/
theorem c5_save_counterexample :
    ((save_db_ops dumpEx docEx).all (fun op => !(isRenameOp op))) = true ∧
    save_db_ops dumpEx docEx =
      [FsOp.openTrunc dbFileName, FsOp.write dbFileName ("NEWDOC")] ∧
    runFs fsEx ((save_db_ops dumpEx docEx).take 1) dbFileName = some "" ∧
    some "" ≠ fsEx dbFileName ∧
    (some "" : Option String) ≠ some ("NEWDOC") := by
  refine ⟨rfl, rfl, rfl, ?_, ?_⟩ <;> decide

/-- Claim C5 (amended): for every serialiser, document and prior file system,
`save_db` performs exactly an in-place truncating open of the database file
followed by one write of the serialised document — no temporary file, no
rename — and a crash between the two operations leaves the database file
empty. -/
theorem c5_save_not_atomic (dump : Doc → String) (db : Doc) (fs : String → Option String) :
    save_db_ops dump db = [FsOp.openTrunc dbFileName, FsOp.write dbFileName (dump db)] ∧
    ((save_db_ops dump db).all (fun op => !(isRenameOp op))) = true ∧
    runFs fs ((save_db_ops dump db).take 1) dbFileName = some "" := by
  refine ⟨rfl, rfl, ?_⟩
  simp [runFs, save_db_ops, applyFsOp]

/-- Claim C6: for every restore request whose snapshot file does not exist or
cannot be parsed, `restore_db` returns failure and the file system — in
particular the live database file, hence any subsequent load — is unchanged. -/
theorem c6_restore_failure_no_change (parse : String → Option Doc) (dump : Doc → String)
    (fs : String → Option String) (path : String)
    (h : fs path = none ∨ ∃ c, fs path = some c ∧ parse c = none) :
    (restore_db parse dump fs path).1 = false ∧
    ∀ q, (restore_db parse dump fs path).2 q = fs q := by
  rcases h with h | ⟨c, hc, hp⟩
  · simp [restore_db, h]
  · simp [restore_db, hc, hp]

/-- Witness for C6: the restore-failure theorem applied to a concrete file
system holding one unparseable snapshot. -/
theorem c6_restore_failure_no_change_witness :
    (restore_db parseNoneEx dumpEx fsBadSnapshotEx ("backups/db_backup_x.json")).1 = false ∧
    (restore_db parseNoneEx dumpEx fsBadSnapshotEx ("backups/db_backup_x.json")).2 dbFileName =
      fsBadSnapshotEx dbFileName :=
  ⟨(c6_restore_failure_no_change parseNoneEx dumpEx fsBadSnapshotEx ("backups/db_backup_x.json")
      (Or.inr ⟨"not json", rfl, rfl⟩)).1,
   (c6_restore_failure_no_change parseNoneEx dumpEx fsBadSnapshotEx ("backups/db_backup_x.json")
      (Or.inr ⟨"not json", rfl, rfl⟩)).2 dbFileName⟩

/-! ## Dates and range queries
(bot.py `get_attendance_in_range` lines 267-277, `get_attendance_by_date`
lines 263-265, `month_kb` lines 377-387, `cb_select_group_report` yearly
branch lines 782-798).

Python `date` objects are always valid calendar dates, so dates are modelled
as (year, month, day) triples carrying their validity; `nextDay` is
`cur += timedelta(days=1)`, `dateLe` is Python's lexicographic date
comparison, and `toKey` is `strftime("%Y-%m-%d")`. -/

theorem daysInMonth_le31 (y m : Nat) : daysInMonth y m ≤ 31 := by
  unfold daysInMonth
  split
  · split <;> omega
  · split <;> omega

theorem dateLe_iff_ordKey (a b : PyDate) : dateLe a b ↔ ordKey a ≤ ordKey b := by
  have ha1 := a.hm1
  have ha2 := a.hm2
  have ha3 := a.hd1
  have ha4 : a.d ≤ 31 := le_trans a.hd2 (daysInMonth_le31 a.y a.m)
  have hb1 := b.hm1
  have hb2 := b.hm2
  have hb3 := b.hd1
  have hb4 : b.d ≤ 31 := le_trans b.hd2 (daysInMonth_le31 b.y b.m)
  unfold dateLe ordKey
  omega

theorem ordKey_lt_nextDay (t : PyDate) : ordKey t < ordKey (nextDay t) := by
  have h2 := t.hm2
  have h4 := t.hd2
  have hdm : daysInMonth t.y t.m ≤ 31 := daysInMonth_le31 t.y t.m
  unfold nextDay
  split
  · show ordKey t < t.y * 512 + t.m * 32 + (t.d + 1)
    unfold ordKey
    omega
  · split
    · show ordKey t < t.y * 512 + (t.m + 1) * 32 + 1
      unfold ordKey
      omega
    · show ordKey t < (t.y + 1) * 512 + 1 * 32 + 1
      unfold ordKey
      omega

theorem ordKey_inj (a b : PyDate) (h : ordKey a = ordKey b) : a = b := by
  obtain ⟨ay, am, ad, p1, p2, p3, p4⟩ := a
  obtain ⟨cy, cm, cd, q1, q2, q3, q4⟩ := b
  have hp4 : ad ≤ 31 := le_trans p4 (daysInMonth_le31 ay am)
  have hq4 : cd ≤ 31 := le_trans q4 (daysInMonth_le31 cy cm)
  unfold ordKey at h
  simp only at h
  have he : ay = cy ∧ am = cm ∧ ad = cd := by omega
  obtain ⟨e1, e2, e3⟩ := he
  subst e1
  subst e2
  subst e3
  rfl

/-- For valid dates, strictly between in the linear order means the next day
is still not past `t`. -/
theorem ordKey_nextDay_le (s t : PyDate) (h : ordKey s < ordKey t) :
    ordKey (nextDay s) ≤ ordKey t := by
  have hsm1 := s.hm1
  have hsm2 := s.hm2
  have hsd1 := s.hd1
  have hsdim := s.hd2
  have htm1 := t.hm1
  have htm2 := t.hm2
  have htd1 := t.hd1
  have htd31 : t.d ≤ 31 := le_trans t.hd2 (daysInMonth_le31 t.y t.m)
  have hsd31 : s.d ≤ 31 := le_trans s.hd2 (daysInMonth_le31 s.y s.m)
  unfold nextDay
  split
  · show s.y * 512 + s.m * 32 + (s.d + 1) ≤ ordKey t
    unfold ordKey at h ⊢
    omega
  · rename_i h1
    split
    · rename_i h2
      show s.y * 512 + (s.m + 1) * 32 + 1 ≤ ordKey t
      by_cases hy : t.y = s.y ∧ t.m = s.m
      · have htd : t.d ≤ daysInMonth s.y s.m := by
          rw [← hy.1, ← hy.2]
          exact t.hd2
        unfold ordKey at h ⊢
        omega
      · rcases not_and_or.mp hy with hy | hy <;>
          (unfold ordKey at h ⊢; omega)
    · rename_i h2
      show (s.y + 1) * 512 + 1 * 32 + 1 ≤ ordKey t
      have hm12 : s.m = 12 := by omega
      have hdim12 : daysInMonth s.y s.m = 31 := by
        rw [hm12]
        simp [daysInMonth]
      have hsd : s.d = 31 := by omega
      unfold ordKey at h ⊢
      omega

/-- Every day between the endpoints (inclusive) contributes its stored
records to the range query result. -/
theorem mem_range_of_between (db : Doc) (s e t : PyDate) (hst : dateLe s t)
    (hte : dateLe t e) (r : AttRec) (hr : r ∈ get_attendance_by_date db (toKey t)) :
    r ∈ get_attendance_in_range db s e := by
  suffices H : ∀ n (s : PyDate), ordKey e + 1 - ordKey s = n → dateLe s t →
      r ∈ get_attendance_in_range db s e by
    exact H _ s rfl hst
  intro n
  induction n using Nat.strong_induction_on with
  | _ n ih =>
    intro s hn hst
    have hkst := (dateLe_iff_ordKey s t).mp hst
    have hkte := (dateLe_iff_ordKey t e).mp hte
    have hse : dateLe s e := (dateLe_iff_ordKey s e).mpr (le_trans hkst hkte)
    rw [get_attendance_in_range, dif_pos hse]
    by_cases heq : ordKey s = ordKey t
    · have hst' : s = t := ordKey_inj s t heq
      subst hst'
      exact List.mem_append_left _ hr
    · have hlt : ordKey s < ordKey t := lt_of_le_of_ne hkst heq
      have hnext : dateLe (nextDay s) t :=
        (dateLe_iff_ordKey _ _).mpr (ordKey_nextDay_le s t hlt)
      apply List.mem_append_right
      apply ih (ordKey e + 1 - ordKey (nextDay s)) ?_ (nextDay s) rfl hnext
      have hk1 := ordKey_lt_nextDay s
      have hk2 := (dateLe_iff_ordKey s e).mp hse
      omega

/-- Claim C7: the monthly-report month selector never offers months 6, 7 or 8,
while the yearly range query over January 1 – December 31 still includes every
record stored under a date key in those months of that year. -/
theorem c7_month_exclusion_vs_yearly :
    (∀ p ∈ month_kb_months, p.2 ≠ 6 ∧ p.2 ≠ 7 ∧ p.2 ≠ 8) ∧
    ∀ (db : Doc) (t : PyDate) (r : AttRec), (t.m = 6 ∨ t.m = 7 ∨ t.m = 8) →
      r ∈ get_attendance_by_date db (toKey t) →
      r ∈ get_attendance_in_range db (jan1 t.y) (dec31 t.y) := by
  constructor
  · decide
  · intro db t r hm hr
    have h1 : dateLe (jan1 t.y) t := by
      unfold dateLe
      refine Or.inr ⟨rfl, Or.inl ?_⟩
      show 1 < t.m
      rcases hm with h | h | h <;> omega
    have h2 : dateLe t (dec31 t.y) := by
      unfold dateLe
      refine Or.inr ⟨rfl, Or.inl ?_⟩
      show t.m < 12
      rcases hm with h | h | h <;> omega
    exact mem_range_of_between db (jan1 t.y) (dec31 t.y) t h1 h2 r hr

/-- Witness for C7: the record stored under June 15, 2025 is returned by the
yearly range query for 2025. -/
theorem c7_month_exclusion_vs_yearly_witness :
    (juneEx.m = 6 ∨ juneEx.m = 7 ∨ juneEx.m = 8) ∧
    recEx ∈ get_attendance_by_date dbJuneEx (toKey juneEx) ∧
    recEx ∈ get_attendance_in_range dbJuneEx (jan1 juneEx.y) (dec31 juneEx.y) := by
  have hmem : recEx ∈ get_attendance_by_date dbJuneEx (toKey juneEx) := by
    simp [get_attendance_by_date, dbJuneEx, dgetD, dlookup]
  exact ⟨Or.inl rfl, hmem,
    c7_month_exclusion_vs_yearly.2 dbJuneEx juneEx recEx (Or.inl rfl) hmem⟩

/-- Claim C8: a range query whose two endpoints are the same date returns
exactly the record list stored under that date key (in stored append order);
more generally the query is inclusive of both endpoints and each day between
them contributes its stored records (days with no stored list contribute
nothing, since their lookup defaults to the empty list). -/
theorem c8_range_query :
    (∀ (db : Doc) (d : PyDate),
      get_attendance_in_range db d d = get_attendance_by_date db (toKey d)) ∧
    ∀ (db : Doc) (s e t : PyDate) (r : AttRec), dateLe s t → dateLe t e →
      r ∈ get_attendance_by_date db (toKey t) → r ∈ get_attendance_in_range db s e := by
  constructor
  · intro db d
    rw [get_attendance_in_range, dif_pos ((dateLe_iff_ordKey d d).mpr le_rfl)]
    rw [get_attendance_in_range, dif_neg (fun hc => by
      have hk1 := (dateLe_iff_ordKey _ _).mp hc
      have hk2 := ordKey_lt_nextDay d
      omega)]
    simp [get_attendance_by_date]
  · intro db s e t r h1 h2 hr
    exact mem_range_of_between db s e t h1 h2 r hr

/-- Witness for C8: the single-day range query theorem applied at March 10,
2025, and endpoint inclusion at the same concrete date. -/
theorem c8_range_query_witness :
    get_attendance_in_range dbMarchEx marchEx marchEx =
      get_attendance_by_date dbMarchEx (toKey marchEx) ∧
    (dateLe marchEx marchEx ∧
      rec8Ex ∈ get_attendance_by_date dbMarchEx (toKey marchEx) ∧
      rec8Ex ∈ get_attendance_in_range dbMarchEx marchEx marchEx) := by
  have hd : dateLe marchEx marchEx := (dateLe_iff_ordKey marchEx marchEx).mpr le_rfl
  have hmem : rec8Ex ∈ get_attendance_by_date dbMarchEx (toKey marchEx) := by
    simp [get_attendance_by_date, dbMarchEx, dgetD, dlookup]
  exact ⟨c8_range_query.1 dbMarchEx marchEx, hd, hmem,
    c8_range_query.2 dbMarchEx marchEx marchEx marchEx rec8Ex hd hd hmem⟩
